import Mathlib

/-!
Verification of the typing-test engine (`src/main.rs`) against its
natural-language specification.

The engine is shallowly embedded: strings are lists of characters, the
session loop body of `main` becomes the pure step function `tick` on a
`GameState`, and wall-clock instants are rationals.  The random sampler
`rand::seq::SliceRandom::choose_multiple` is abstracted as a `Sampler`
carrying its documented contract (it returns `min amount len` distinct
elements of the source slice); `takeSampler` is a concrete deterministic
instance of that contract used for concrete runs.
-/

namespace TypingTest

/-- A word (Rust `String` / `&str`) as a list of characters. -/
abbrev Word := List Char

/-- `config::GameMode` from `config.rs`. -/
inductive GameMode
  | Words
  | Time
deriving DecidableEq, Repr

/-- The slice of `config::Config` the session loop reads
(`default_test_length`, `default_time_limit`, `game_mode`,
`restart_button`). -/
structure Config where
  gameMode : GameMode
  numWords : Nat
  timeLimit : Nat
  restartButton : Bool
deriving DecidableEq, Repr

/-- Abstraction of `rand::seq::SliceRandom::choose_multiple`: a sampler
returns `min amount len` elements of the source, drawn without
replacement (so distinct when the source has no duplicates). -/
structure Sampler where
  choose : List Word → Nat → List Word
  length_choose : ∀ src n, (choose src n).length = min n src.length
  mem_choose : ∀ src n, ∀ w ∈ choose src n, w ∈ src
  nodup_choose : ∀ src n, src.Nodup → (choose src n).Nodup

/-- A deterministic instance of the sampler contract (one fixed draw):
take the first `min amount len` elements. -/
def takeSampler : Sampler where
  choose src n := src.take n
  length_choose := by
    intro src n
    simp
  mem_choose := by
    intro src n w hw
    exact List.mem_of_mem_take hw
  nodup_choose := by
    intro src n h
    exact h.sublist (List.take_sublist n src)

/-- The mutable session state of the loop in `main`:
`words_to_type`, `user_typed_words`, `current_word_index`, `start_time`. -/
structure GameState where
  wordsToType : List Word
  userTypedWords : List Word
  currentWordIndex : Nat
  startTime : Option ℚ
deriving DecidableEq, Repr

/-- Session construction (`main.rs` lines 74–88): Words mode draws
`num_words` words; Time mode concatenates ten full-source draws. -/
def initState (smp : Sampler) (cfg : Config) (wordList : List Word) : GameState :=
  match cfg.gameMode with
  | GameMode.Words =>
    let w := smp.choose wordList cfg.numWords
    { wordsToType := w
      userTypedWords := List.replicate w.length []
      currentWordIndex := 0
      startTime := none }
  | GameMode.Time =>
    let pool := (List.range 10).foldl (fun acc _ => acc ++ smp.choose wordList wordList.length) []
    { wordsToType := pool
      userTypedWords := List.replicate pool.length []
      currentWordIndex := 0
      startTime := none }

/-- `Vec::resize(n, String::new())` on the typed buffers: truncate to
`n`, or extend with empty buffers. -/
def resizeWith (l : List Word) (n : Nat) : List Word :=
  l.take n ++ List.replicate (n - l.length) []

/-- Space key (`main.rs` lines 409–420): advance the cursor unless it is
on the last word; in Time mode replenish with a 20-word draw when fewer
than 10 words remain at or after the cursor. -/
def spaceEvent (smp : Sampler) (cfg : Config) (wordList : List Word) (s : GameState) : GameState :=
  if s.currentWordIndex < s.wordsToType.length - 1 then
    let s1 := { s with currentWordIndex := s.currentWordIndex + 1 }
    match cfg.gameMode with
    | GameMode.Time =>
      if s1.wordsToType.length - s1.currentWordIndex < 10 then
        let w := s1.wordsToType ++ smp.choose wordList 20
        { s1 with
            wordsToType := w
            userTypedWords := resizeWith s1.userTypedWords w.length }
      else s1
    | GameMode.Words => s1
  else s

/-- Printable-character key (`main.rs` lines 422–434): start the clock
if not started, push the character onto the buffer at the cursor, and in
Words mode complete immediately (`true`) when the cursor is on index
`num_words - 1` and the buffer now equals the target word. -/
def charEvent (cfg : Config) (s : GameState) (now : ℚ) (c : Char) : GameState × Bool :=
  let st := match s.startTime with
    | none => some now
    | some t => some t
  let buf := s.userTypedWords.getD s.currentWordIndex []
  let s1 := { s with
      startTime := st
      userTypedWords := s.userTypedWords.set s.currentWordIndex (buf ++ [c]) }
  match cfg.gameMode with
  | GameMode.Words =>
    if s1.currentWordIndex = cfg.numWords - 1 ∧
        s1.userTypedWords.getD s1.currentWordIndex [] =
          s1.wordsToType.getD s1.currentWordIndex [] then
      (s1, true)
    else
      (s1, false)
  | GameMode.Time => (s1, false)

/-- Backspace key (`main.rs` line 437): `String::pop` on the buffer at
the cursor (a no-op on an empty buffer). -/
def backspaceEvent (s : GameState) : GameState :=
  { s with
      userTypedWords :=
        s.userTypedWords.set s.currentWordIndex
          ((s.userTypedWords.getD s.currentWordIndex []).dropLast) }

/-- Tab key (`main.rs` lines 439–451): when the restart button is
enabled, redraw `num_words` words, clear all buffers, reset the cursor
and the clock.  Note the redraw uses `num_words` in both modes. -/
def restartEvent (smp : Sampler) (cfg : Config) (wordList : List Word) (s : GameState) : GameState :=
  if cfg.restartButton then
    let w := smp.choose wordList cfg.numWords
    { wordsToType := w
      userTypedWords := List.replicate w.length []
      currentWordIndex := 0
      startTime := none }
  else
    s

/-- The key events the session loop distinguishes (`crossterm`
`KeyCode`); `other` stands for every ignored key. -/
inductive KeyCode
  | char (c : Char)
  | backspace
  | tab
  | esc
  | other
deriving DecidableEq, Repr

/-- Completion predicate checked at the top of each loop iteration
(`main.rs` lines 100–117).  `start.elapsed().as_secs()` truncates to
whole seconds, modelled by the floor. -/
def gameOverCheck (cfg : Config) (s : GameState) (now : ℚ) : Bool :=
  match cfg.gameMode with
  | GameMode.Time =>
    match s.startTime with
    | some start => decide ((cfg.timeLimit : ℤ) ≤ ⌊now - start⌋)
    | none => false
  | GameMode.Words => decide (cfg.numWords ≤ s.currentWordIndex)

/-- Event dispatch (`main.rs` lines 408–457); the Bool is `true` when
the dispatched event breaks out of the session loop.  A space matches
the `KeyCode::Char(' ')` arm before the generic character arm. -/
def dispatchKey (smp : Sampler) (cfg : Config) (wordList : List Word)
    (s : GameState) (now : ℚ) (k : KeyCode) : GameState × Bool :=
  match k with
  | KeyCode.char c =>
    if c = ' ' then (spaceEvent smp cfg wordList s, false)
    else charEvent cfg s now c
  | KeyCode.backspace => (backspaceEvent s, false)
  | KeyCode.tab => (restartEvent smp cfg wordList s, false)
  | KeyCode.esc => (s, true)
  | KeyCode.other => (s, false)

/-- Dispatch of an optional polled event (`event::poll` may time out,
in which case nothing is dispatched). -/
def dispatchOpt (smp : Sampler) (cfg : Config) (wordList : List Word)
    (s : GameState) (now : ℚ) : Option KeyCode → GameState × Bool
  | none => (s, false)
  | some k => dispatchKey smp cfg wordList s now k

/-- One tick's external inputs: the interrupt flag, the current
instant, and the polled key event if any. -/
structure TickInput where
  interrupted : Bool
  now : ℚ
  key : Option KeyCode

/-- One iteration of the session loop (`main.rs` lines 95–464): check
the interrupt flag, check the completion predicate, dispatch the polled
event, then check whether the cursor ran past the queue.  The Bool is
`true` when the session leaves `Running`. -/
def tick (smp : Sampler) (cfg : Config) (wordList : List Word)
    (s : GameState) (inp : TickInput) : GameState × Bool :=
  if inp.interrupted then (s, true)
  else if gameOverCheck cfg s inp.now then (s, true)
  else
    let d := dispatchOpt smp cfg wordList s inp.now inp.key
    if d.2 then (d.1, true)
    else if d.1.wordsToType.length ≤ d.1.currentWordIndex then (d.1, true)
    else (d.1, false)

/-- Run a scripted key sequence from a fresh session, one tick per key,
all at the same instant, stopping at the first tick that ends the
session. -/
def runScript (smp : Sampler) (cfg : Config) (wordList : List Word)
    (now : ℚ) (keys : List KeyCode) : GameState × Bool :=
  keys.foldl
    (fun sb k => if sb.2 then sb else tick smp cfg wordList sb.1 { interrupted := false, now := now, key := some k })
    (initState smp cfg wordList, false)

/-- Per-word matching characters (`typed.chars().zip(original.chars())
.filter(|(a, b)| a == b).count()`). -/
def correctInWord (typed original : Word) : Nat :=
  ((typed.zip original).filter (fun p => decide (p.1 = p.2))).length

/-- Per-word mismatching characters within the zipped prefix. -/
def mismatchInWord (typed original : Word) : Nat :=
  ((typed.zip original).filter (fun p => decide (¬ p.1 = p.2))).length

/-- Per-word overflow: characters typed beyond the target word's
length. -/
def overflowInWord (typed original : Word) : Nat :=
  typed.length - original.length

/-- Live correct-character total (`main.rs` lines 122–132): summed over
every (buffer, word) pair of the whole queue. -/
def liveCorrectTotal (s : GameState) : Nat :=
  ((s.userTypedWords.zip s.wordsToType).map (fun p => correctInWord p.1 p.2)).sum

/-- Live correct-character total restricted to the words up to and
including the cursor (the spec's description of the live sample). -/
def liveCorrectUpToCursor (s : GameState) : Nat :=
  (((s.userTypedWords.zip s.wordsToType).take (s.currentWordIndex + 1)).map
    (fun p => correctInWord p.1 p.2)).sum

/-- Live WPM (`main.rs` lines 134–145): characters per minute over the
elapsed seconds since the first keystroke, divided by five; zero when
the clock has not started or no time has elapsed. -/
def liveWpm (s : GameState) (now : ℚ) : ℚ :=
  let elapsedSeconds : ℚ :=
    match s.startTime with
    | some start => now - start
    | none => 0
  let cpm : ℚ :=
    if 0 < elapsedSeconds then ((liveCorrectTotal s : ℚ) / elapsedSeconds) * 60
    else 0
  cpm / 5

/-- The per-word step of the final-count fold (`main.rs` lines
475–487): zip the buffer with the target counting matches and
mismatches, then count every overflow character as incorrect. -/
def wordFold (acc : Nat × Nat) (p : Word × Word) : Nat × Nat :=
  let a := (p.1.zip p.2).foldl
    (fun a q => if q.1 = q.2 then (a.1 + 1, a.2) else (a.1, a.2 + 1)) acc
  if p.2.length < p.1.length then (a.1, a.2 + (p.1.length - p.2.length)) else a

/-- Final (correct, incorrect) character counts (`main.rs` lines
471–487), scoped to the words up to and including the cursor. -/
def finalCounts (s : GameState) : Nat × Nat :=
  ((s.userTypedWords.zip s.wordsToType).take (s.currentWordIndex + 1)).foldl wordFold (0, 0)

/-- Duration used for the final WPM (`main.rs` lines 466–469): the
configured limit in Time mode, the elapsed time since the first
keystroke (zero if none) in Words mode. -/
def finalDuration (cfg : Config) (s : GameState) (now : ℚ) : ℚ :=
  match cfg.gameMode with
  | GameMode.Time => (cfg.timeLimit : ℚ)
  | GameMode.Words =>
    match s.startTime with
    | some start => now - start
    | none => 0

/-- Final WPM (`main.rs` lines 489–493). -/
def finalWpm (cfg : Config) (s : GameState) (now : ℚ) : ℚ :=
  let d := finalDuration cfg s now
  if 0 < d then ((finalCounts s).1 : ℚ) / 5 / (d / 60) else 0

/-- Final accuracy (`main.rs` lines 495–500). -/
def finalAccuracy (s : GameState) : ℚ :=
  let c := (finalCounts s).1
  let i := (finalCounts s).2
  if c + i = 0 then 100 else ((c : ℚ) / ((c + i : Nat) : ℚ)) * 100

/-- The session states reachable from construction by iterating the
loop body. -/
inductive Reachable (smp : Sampler) (cfg : Config) (wordList : List Word) : GameState → Prop
  | init : Reachable smp cfg wordList (initState smp cfg wordList)
  | step : ∀ s inp, Reachable smp cfg wordList s →
      Reachable smp cfg wordList (tick smp cfg wordList s inp).1

/-- The structural state invariant: buffers and queue have equal
length, and every buffer strictly after the cursor is empty. -/
def StateInv (s : GameState) : Prop :=
  s.userTypedWords.length = s.wordsToType.length ∧
  ∀ j, s.currentWordIndex < j → s.userTypedWords.getD j [] = []

/-- Scenario A configuration: Words mode, target length 3. -/
def cfgA : Config :=
  { gameMode := GameMode.Words, numWords := 3, timeLimit := 60, restartButton := true }

/-- Scenario A word source, `["cat", "dog", "sun"]`. -/
def wlA : List Word := [['c', 'a', 't'], ['d', 'o', 'g'], ['s', 'u', 'n']]

/-- Scenario A keystrokes, `c a t <space> d o g <space> s u n`. -/
def scriptA : List KeyCode :=
  [KeyCode.char 'c', KeyCode.char 'a', KeyCode.char 't', KeyCode.char ' ',
   KeyCode.char 'd', KeyCode.char 'o', KeyCode.char 'g', KeyCode.char ' ',
   KeyCode.char 's', KeyCode.char 'u', KeyCode.char 'n']

/-- Scenario A keystrokes up to but excluding the final `n`. -/
def scriptApre : List KeyCode :=
  [KeyCode.char 'c', KeyCode.char 'a', KeyCode.char 't', KeyCode.char ' ',
   KeyCode.char 'd', KeyCode.char 'o', KeyCode.char 'g', KeyCode.char ' ',
   KeyCode.char 's', KeyCode.char 'u']

/-- The session state reached by scenario A just before the final `n`. -/
def sPre : GameState := (runScript takeSampler cfgA wlA 0 scriptApre).1

/-- A Time-mode configuration with the menu's minimum test length 5. -/
def cfgT : Config :=
  { gameMode := GameMode.Time, numWords := 5, timeLimit := 60, restartButton := true }

/-- A twelve-word source for the Time-mode runs. -/
def wlT : List Word :=
  [['a'], ['b'], ['c'], ['d'], ['e'], ['f'], ['g'], ['h'], ['i'], ['j'], ['k'], ['l']]

/-! ### Helper lemmas about list primitives -/

lemma getD_set_ne (l : List Word) (i j : Nat) (a : Word) (h : i ≠ j) :
    (l.set i a).getD j [] = l.getD j [] := by
  simp [List.getD_eq_getElem?_getD, List.getElem?_set_ne h]

lemma getD_set_self (l : List Word) (i : Nat) (a : Word) (h : i < l.length) :
    (l.set i a).getD i [] = a := by
  simp [List.getD_eq_getElem?_getD, List.getElem?_set, h]

lemma getD_replicate_nil (n j : Nat) :
    (List.replicate n ([] : Word)).getD j [] = [] := by
  rw [List.getD_eq_getElem?_getD, List.getElem?_replicate]
  split <;> rfl

lemma length_resizeWith (l : List Word) (n : Nat) : (resizeWith l n).length = n := by
  simp [resizeWith]
  omega

lemma getD_resizeWith (l : List Word) (n j : Nat) (hl : l.length ≤ n)
    (h : l.getD j [] = []) : (resizeWith l n).getD j [] = [] := by
  unfold resizeWith
  rw [List.take_of_length_le hl, List.getD_eq_getElem?_getD, List.getElem?_append]
  split
  · rw [← List.getD_eq_getElem?_getD]
    exact h
  · rw [List.getElem?_replicate]
    split <;> rfl

/-! ### Preservation of the structural invariant -/

lemma stateInv_init (smp : Sampler) (cfg : Config) (wl : List Word) :
    StateInv (initState smp cfg wl) := by
  obtain ⟨gm, nw, tl, rb⟩ := cfg
  cases gm <;>
    exact ⟨by simp [initState], fun j hj => by simp [initState, getD_replicate_nil]⟩

lemma stateInv_spaceEvent (smp : Sampler) (cfg : Config) (wl : List Word) (s : GameState)
    (h : StateInv s) : StateInv (spaceEvent smp cfg wl s) := by
  obtain ⟨hlen, hemp⟩ := h
  obtain ⟨gm, nw, tl, rb⟩ := cfg
  unfold spaceEvent
  split
  · cases gm with
    | Words => exact ⟨hlen, fun j hj => hemp j (Nat.lt_of_succ_lt hj)⟩
    | Time =>
      dsimp only
      split
      · refine ⟨by simp [length_resizeWith], fun j hj => ?_⟩
        apply getD_resizeWith
        · simp [hlen]
        · exact hemp j (Nat.lt_of_succ_lt hj)
      · exact ⟨hlen, fun j hj => hemp j (Nat.lt_of_succ_lt hj)⟩
  · exact ⟨hlen, hemp⟩

lemma charEvent_fst (cfg : Config) (s : GameState) (now : ℚ) (c : Char) :
    (charEvent cfg s now c).1 =
      { s with
          startTime := match s.startTime with
            | none => some now
            | some t => some t
          userTypedWords := s.userTypedWords.set s.currentWordIndex
            ((s.userTypedWords.getD s.currentWordIndex []) ++ [c]) } := by
  obtain ⟨gm, nw, tl, rb⟩ := cfg
  cases gm
  · unfold charEvent
    dsimp only
    split <;> rfl
  · rfl

lemma stateInv_charEvent (cfg : Config) (s : GameState) (now : ℚ) (c : Char)
    (h : StateInv s) : StateInv (charEvent cfg s now c).1 := by
  obtain ⟨hlen, hemp⟩ := h
  rw [charEvent_fst]
  refine ⟨by simpa using hlen, fun j hj => ?_⟩
  have hj2 : s.currentWordIndex < j := hj
  dsimp only
  rw [getD_set_ne _ _ _ _ (Nat.ne_of_lt hj2)]
  exact hemp j hj2

lemma stateInv_backspaceEvent (s : GameState) (h : StateInv s) :
    StateInv (backspaceEvent s) := by
  obtain ⟨hlen, hemp⟩ := h
  refine ⟨by simpa [backspaceEvent] using hlen, fun j hj => ?_⟩
  have hj2 : s.currentWordIndex < j := hj
  unfold backspaceEvent
  dsimp only
  rw [getD_set_ne _ _ _ _ (Nat.ne_of_lt hj2)]
  exact hemp j hj2

lemma stateInv_restartEvent (smp : Sampler) (cfg : Config) (wl : List Word) (s : GameState)
    (h : StateInv s) : StateInv (restartEvent smp cfg wl s) := by
  unfold restartEvent
  split
  · exact ⟨by simp, fun j hj => by simp [getD_replicate_nil]⟩
  · exact h

lemma stateInv_dispatchOpt (smp : Sampler) (cfg : Config) (wl : List Word) (s : GameState)
    (now : ℚ) (k : Option KeyCode) (h : StateInv s) :
    StateInv (dispatchOpt smp cfg wl s now k).1 := by
  cases k with
  | none => exact h
  | some k =>
    cases k with
    | char c =>
      by_cases hc : c = ' '
      · have he : dispatchOpt smp cfg wl s now (some (KeyCode.char c)) =
            (spaceEvent smp cfg wl s, false) := by
          simp [dispatchOpt, dispatchKey, hc]
        rw [he]
        exact stateInv_spaceEvent smp cfg wl s h
      · have he : dispatchOpt smp cfg wl s now (some (KeyCode.char c)) =
            charEvent cfg s now c := by
          simp [dispatchOpt, dispatchKey, hc]
        rw [he]
        exact stateInv_charEvent cfg s now c h
    | backspace => exact stateInv_backspaceEvent s h
    | tab => exact stateInv_restartEvent smp cfg wl s h
    | esc => exact h
    | other => exact h

lemma stateInv_tick (smp : Sampler) (cfg : Config) (wl : List Word) (s : GameState)
    (inp : TickInput) (h : StateInv s) : StateInv (tick smp cfg wl s inp).1 := by
  unfold tick
  split
  · exact h
  split
  · exact h
  have hd := stateInv_dispatchOpt smp cfg wl s inp.now inp.key h
  dsimp only
  split
  · exact hd
  split
  · exact hd
  · exact hd

lemma stateInv_reachable (smp : Sampler) (cfg : Config) (wl : List Word) (s : GameState)
    (h : Reachable smp cfg wl s) : StateInv s := by
  induction h with
  | init => exact stateInv_init smp cfg wl
  | step s inp _ ih => exact stateInv_tick smp cfg wl s inp ih

/-! ### The final-count fold as sums of per-word contributions -/

lemma innerFold_eq (l : List (Char × Char)) (acc : Nat × Nat) :
    l.foldl (fun a q => if q.1 = q.2 then (a.1 + 1, a.2) else (a.1, a.2 + 1)) acc =
      (acc.1 + (l.filter (fun p => decide (p.1 = p.2))).length,
       acc.2 + (l.filter (fun p => decide (¬ p.1 = p.2))).length) := by
  induction l generalizing acc with
  | nil => simp
  | cons q l ih =>
    by_cases hq : q.1 = q.2 <;>
      simp [List.foldl_cons, hq, ih] <;> omega

lemma wordFold_eq (acc : Nat × Nat) (p : Word × Word) :
    wordFold acc p =
      (acc.1 + correctInWord p.1 p.2,
       acc.2 + (mismatchInWord p.1 p.2 + overflowInWord p.1 p.2)) := by
  unfold wordFold correctInWord mismatchInWord overflowInWord
  rw [innerFold_eq]
  split
  · dsimp only
    congr 1
    omega
  · dsimp only
    congr 1
    omega

lemma foldl_wordFold_eq (l : List (Word × Word)) (acc : Nat × Nat) :
    l.foldl wordFold acc =
      (acc.1 + (l.map (fun p => correctInWord p.1 p.2)).sum,
       acc.2 + (l.map (fun p => mismatchInWord p.1 p.2 + overflowInWord p.1 p.2)).sum) := by
  induction l generalizing acc with
  | nil => simp
  | cons p l ih =>
    rw [List.foldl_cons, ih, wordFold_eq]
    simp
    constructor <;> omega

lemma finalCounts_eq (s : GameState) :
    finalCounts s =
      ((((s.userTypedWords.zip s.wordsToType).take (s.currentWordIndex + 1)).map
          (fun p => correctInWord p.1 p.2)).sum,
       (((s.userTypedWords.zip s.wordsToType).take (s.currentWordIndex + 1)).map
          (fun p => mismatchInWord p.1 p.2 + overflowInWord p.1 p.2)).sum) := by
  unfold finalCounts
  rw [foldl_wordFold_eq]
  simp

/-! ### Overflow characters -/

lemma zip_append_of_le (r l e : List Char) (h : r.length ≤ l.length) :
    (l ++ e).zip r = l.zip r := by
  induction r generalizing l with
  | nil => simp
  | cons b r ih =>
    cases l with
    | nil => simp at h
    | cons a l =>
      simp only [List.cons_append, List.zip_cons_cons, List.cons.injEq, true_and]
      exact ih l (by simpa using h)

lemma correctInWord_append (typed original extra : Word)
    (h : original.length ≤ typed.length) :
    correctInWord (typed ++ extra) original = correctInWord typed original := by
  unfold correctInWord
  rw [zip_append_of_le original typed extra h]

lemma mismatchInWord_append (typed original extra : Word)
    (h : original.length ≤ typed.length) :
    mismatchInWord (typed ++ extra) original = mismatchInWord typed original := by
  unfold mismatchInWord
  rw [zip_append_of_le original typed extra h]

lemma overflowInWord_append (typed original extra : Word)
    (h : original.length ≤ typed.length) :
    overflowInWord (typed ++ extra) original = overflowInWord typed original + extra.length := by
  unfold overflowInWord
  simp only [List.length_append]
  omega

/-! ### The live total only draws on words up to the cursor -/

lemma correctInWord_nil (original : Word) : correctInWord [] original = 0 := rfl

lemma liveCorrectTotal_eq_upToCursor (s : GameState) (h : StateInv s) :
    liveCorrectTotal s = liveCorrectUpToCursor s := by
  obtain ⟨hlen, hemp⟩ := h
  unfold liveCorrectTotal liveCorrectUpToCursor
  have hsplit :=
    (List.take_append_drop (s.currentWordIndex + 1) (s.userTypedWords.zip s.wordsToType)).symm
  conv_lhs => rw [hsplit]
  rw [List.map_append, List.sum_append]
  have hzero : (((s.userTypedWords.zip s.wordsToType).drop (s.currentWordIndex + 1)).map
      (fun p => correctInWord p.1 p.2)).sum = 0 := by
    apply List.sum_eq_zero
    intro x hx
    obtain ⟨p, hp, hpx⟩ := List.mem_map.mp hx
    obtain ⟨i, hi, hget⟩ := List.getElem_of_mem hp
    have hglen := List.length_zip s.userTypedWords s.wordsToType
    have hdlen :=
      List.length_drop (s.currentWordIndex + 1) (s.userTypedWords.zip s.wordsToType)
    have hmin :
        (s.userTypedWords.zip s.wordsToType).length =
          min s.userTypedWords.length s.wordsToType.length := hglen
    have hul : s.currentWordIndex + 1 + i < s.userTypedWords.length := by omega
    have hwl : s.currentWordIndex + 1 + i < s.wordsToType.length := by omega
    have hpair :
        p = (s.userTypedWords[s.currentWordIndex + 1 + i],
             s.wordsToType[s.currentWordIndex + 1 + i]) := by
      rw [← hget, List.getElem_drop, List.getElem_zip]
    have hnil : p.1 = [] := by
      rw [hpair]
      dsimp only
      rw [← List.getD_eq_getElem s.userTypedWords [] hul]
      exact hemp _ (by omega)
    rw [← hpx, hnil, correctInWord_nil]
  rw [hzero]
  omega

/-! ### Characterizations of the paths out of the Running loop -/

lemma charEvent_snd_iff (cfg : Config) (s : GameState) (now : ℚ) (c : Char) :
    (charEvent cfg s now c).2 = true ↔
      cfg.gameMode = GameMode.Words ∧
      s.currentWordIndex = cfg.numWords - 1 ∧
      (s.userTypedWords.set s.currentWordIndex
          ((s.userTypedWords.getD s.currentWordIndex []) ++ [c])).getD s.currentWordIndex [] =
        s.wordsToType.getD s.currentWordIndex [] := by
  obtain ⟨gm, nw, tl, rb⟩ := cfg
  cases gm with
  | Words =>
    unfold charEvent
    dsimp only
    split
    case isTrue h => exact iff_of_true rfl ⟨rfl, h.1, h.2⟩
    case isFalse h =>
      simp only [Bool.false_eq_true, false_iff, not_and]
      intro _ h1 h2
      exact h ⟨h1, h2⟩
  | Time =>
    unfold charEvent
    simp

lemma gameOverCheck_iff (cfg : Config) (s : GameState) (now : ℚ) :
    gameOverCheck cfg s now = true ↔
      (cfg.gameMode = GameMode.Time ∧
        ∃ t, s.startTime = some t ∧ (cfg.timeLimit : ℚ) ≤ now - t) ∨
      (cfg.gameMode = GameMode.Words ∧ cfg.numWords ≤ s.currentWordIndex) := by
  obtain ⟨gm, nw, tl, rb⟩ := cfg
  cases gm with
  | Words =>
    unfold gameOverCheck
    simp
  | Time =>
    unfold gameOverCheck
    cases hst : s.startTime with
    | none => simp [hst]
    | some t => simp [hst, Int.le_floor]

lemma dispatchOpt_snd_iff (smp : Sampler) (cfg : Config) (wl : List Word) (s : GameState)
    (now : ℚ) (k : Option KeyCode) :
    (dispatchOpt smp cfg wl s now k).2 = true ↔
      k = some KeyCode.esc ∨
      ∃ c, k = some (KeyCode.char c) ∧ c ≠ ' ' ∧ (charEvent cfg s now c).2 = true := by
  cases k with
  | none => simp [dispatchOpt]
  | some kc =>
    cases kc with
    | char c =>
      by_cases hc : c = ' '
      · subst hc
        simp [dispatchOpt, dispatchKey]
      · simp [dispatchOpt, dispatchKey, hc]
    | backspace => simp [dispatchOpt, dispatchKey]
    | tab => simp [dispatchOpt, dispatchKey]
    | esc => simp [dispatchOpt, dispatchKey]
    | other => simp [dispatchOpt, dispatchKey]

lemma tick_snd_iff (smp : Sampler) (cfg : Config) (wl : List Word) (s : GameState)
    (inp : TickInput) :
    (tick smp cfg wl s inp).2 = true ↔
      inp.interrupted = true ∨ gameOverCheck cfg s inp.now = true ∨
      (dispatchOpt smp cfg wl s inp.now inp.key).2 = true ∨
      (dispatchOpt smp cfg wl s inp.now inp.key).1.wordsToType.length ≤
        (dispatchOpt smp cfg wl s inp.now inp.key).1.currentWordIndex := by
  unfold tick
  split
  case isTrue h => simp [h]
  case isFalse h =>
    split
    case isTrue h2 => simp [h2]
    case isFalse h2 =>
      dsimp only
      split
      case isTrue h3 => simp [h, h2, h3]
      case isFalse h3 =>
        split
        case isTrue h4 => simp [h, h2, h3, h4]
        case isFalse h4 => simp [h, h2, h3, h4]

/-! ### Claim theorems -/

/-- Claim C1: the final metric computation covers exactly the words up to and
including the word active at session end; per word, the buffer and the target
are compared position-by-position up to the shorter length (matches counted
correct, mismatches incorrect) and every typed character beyond the target's
length counts as incorrect; `n` characters of overflow add exactly `n` to the
incorrect count and leave the correct count unchanged. -/
theorem final_counts_position_by_position (s : GameState) (typed original extra : Word)
    (h : original.length ≤ typed.length) :
    finalCounts s =
      ((((s.userTypedWords.zip s.wordsToType).take (s.currentWordIndex + 1)).map
          (fun p => correctInWord p.1 p.2)).sum,
       (((s.userTypedWords.zip s.wordsToType).take (s.currentWordIndex + 1)).map
          (fun p => mismatchInWord p.1 p.2 + overflowInWord p.1 p.2)).sum) ∧
    correctInWord (typed ++ extra) original = correctInWord typed original ∧
    mismatchInWord (typed ++ extra) original = mismatchInWord typed original ∧
    overflowInWord (typed ++ extra) original = overflowInWord typed original + extra.length :=
  ⟨finalCounts_eq s, correctInWord_append typed original extra h,
   mismatchInWord_append typed original extra h, overflowInWord_append typed original extra h⟩

/-- Witness for C1 at a concrete state and a two-character overflow. -/
theorem final_counts_position_by_position_witness :
    (['a'] : Word).length ≤ (['a', 'b'] : Word).length ∧
    correctInWord (['a', 'b'] ++ ['x', 'y']) ['a'] = correctInWord ['a', 'b'] ['a'] ∧
    overflowInWord (['a', 'b'] ++ ['x', 'y']) ['a'] =
      overflowInWord ['a', 'b'] ['a'] + (['x', 'y'] : Word).length :=
  ⟨by decide,
   (final_counts_position_by_position ⟨[], [], 0, none⟩ ['a', 'b'] ['a'] ['x', 'y']
      (by decide)).2.1,
   (final_counts_position_by_position ⟨[], [], 0, none⟩ ['a', 'b'] ['a'] ['x', 'y']
      (by decide)).2.2.2⟩

/-- Claim C2: the reported accuracy is `correct / (correct + incorrect) * 100`
over the final counts, is `100` when both counts are zero, and always lies in
`[0, 100]`. -/
theorem accuracy_from_final_counts (s : GameState) :
    finalAccuracy s =
      (if (finalCounts s).1 + (finalCounts s).2 = 0 then (100 : ℚ)
       else ((finalCounts s).1 : ℚ) / (((finalCounts s).1 : ℚ) + ((finalCounts s).2 : ℚ)) * 100) ∧
    0 ≤ finalAccuracy s ∧ finalAccuracy s ≤ 100 := by
  have hmain : finalAccuracy s =
      (if (finalCounts s).1 + (finalCounts s).2 = 0 then (100 : ℚ)
       else ((finalCounts s).1 : ℚ) / (((finalCounts s).1 : ℚ) + ((finalCounts s).2 : ℚ)) * 100) := by
    unfold finalAccuracy
    dsimp only
    split
    · rfl
    · push_cast
      ring_nf
  refine ⟨hmain, ?_, ?_⟩
  · rw [hmain]
    split
    · norm_num
    · positivity
  · rw [hmain]
    split
    · norm_num
    case isFalse h =>
      have hpos : (0 : ℚ) < ((finalCounts s).1 : ℚ) + ((finalCounts s).2 : ℚ) := by
        have h2 : 0 < (finalCounts s).1 + (finalCounts s).2 := Nat.pos_of_ne_zero h
        exact_mod_cast h2
      have h1 : ((finalCounts s).1 : ℚ) / (((finalCounts s).1 : ℚ) + ((finalCounts s).2 : ℚ)) ≤ 1 := by
        rw [div_le_one hpos]
        exact_mod_cast Nat.le_add_right (finalCounts s).1 (finalCounts s).2
      calc ((finalCounts s).1 : ℚ) / (((finalCounts s).1 : ℚ) + ((finalCounts s).2 : ℚ)) * 100
          ≤ 1 * 100 := mul_le_mul_of_nonneg_right h1 (by norm_num)
        _ = 100 := by norm_num

/-- Claim C3: in every reachable state the live WPM equals
(correct characters over the words up to the cursor inclusive / 5) divided by
the elapsed minutes since the clock started, and it is `0` whenever the clock
has not started. -/
theorem live_wpm_formula (smp : Sampler) (cfg : Config) (wl : List Word) (s : GameState)
    (now t : ℚ) (hr : Reachable smp cfg wl s) :
    (s.startTime = none → liveWpm s now = 0) ∧
    (s.startTime = some t → 0 < now - t →
      liveWpm s now = ((liveCorrectUpToCursor s : ℚ) / 5) / ((now - t) / 60)) := by
  have hinv := stateInv_reachable smp cfg wl s hr
  have hcc := liveCorrectTotal_eq_upToCursor s hinv
  constructor
  · intro h0
    unfold liveWpm
    rw [h0]
    norm_num
  · intro hsome hpos
    unfold liveWpm
    rw [hsome, hcc]
    dsimp only
    rw [if_pos hpos]
    have hne : now - t ≠ 0 := ne_of_gt hpos
    rw [div_div_div_comm]
    field_simp

/-- Witness for C3: a freshly constructed session has no start instant and
live WPM `0`. -/
theorem live_wpm_formula_witness :
    liveWpm (initState takeSampler cfgA wlA) 0 = 0 :=
  (live_wpm_formula takeSampler cfgA wlA (initState takeSampler cfgA wlA) 0 0
      Reachable.init).1 rfl

/-- Claim C4: in Words mode, when the cursor is on the last queue index (and
the queue has the configured length), a pushed character that makes the buffer
equal the target word completes the session immediately, no trailing space
needed; scenario A (`cat dog sun` typed as `c a t <space> d o g <space>
s u n`) completes that way with `correct = 9`, `incorrect = 0`,
`accuracy = 100`. -/
theorem last_word_exact_match_completes (smp : Sampler) (cfg : Config) (wl : List Word)
    (s : GameState) (now : ℚ) (c : Char)
    (hmode : cfg.gameMode = GameMode.Words)
    (hn : 0 < cfg.numWords)
    (hlen : s.wordsToType.length = cfg.numWords)
    (hblen : s.userTypedWords.length = s.wordsToType.length)
    (hidx : s.currentWordIndex = s.wordsToType.length - 1)
    (hc : c ≠ ' ')
    (hmatch : s.userTypedWords.getD s.currentWordIndex [] ++ [c] =
      s.wordsToType.getD s.currentWordIndex []) :
    (tick smp cfg wl s { interrupted := false, now := now, key := some (KeyCode.char c) }).2 = true ∧
    (runScript takeSampler cfgA wlA 0 scriptA).2 = true ∧
    (runScript takeSampler cfgA wlA 0 scriptA).1.currentWordIndex = 2 ∧
    finalCounts (runScript takeSampler cfgA wlA 0 scriptA).1 = (9, 0) ∧
    finalAccuracy (runScript takeSampler cfgA wlA 0 scriptA).1 = 100 := by
  refine ⟨?_, by decide, by decide, by decide, ?_⟩
  · rw [tick_snd_iff]
    refine Or.inr (Or.inr (Or.inl ?_))
    rw [dispatchOpt_snd_iff]
    refine Or.inr ⟨c, rfl, hc, ?_⟩
    rw [charEvent_snd_iff]
    refine ⟨hmode, by omega, ?_⟩
    rw [getD_set_self _ _ _ (by omega)]
    exact hmatch
  · have h9 : finalCounts (runScript takeSampler cfgA wlA 0 scriptA).1 = (9, 0) := by decide
    simp [finalAccuracy, h9]

/-- Witness for C4: the final `n` of scenario A fires the exact-match
completion. -/
theorem last_word_exact_match_completes_witness :
    (0 < cfgA.numWords ∧ ('n' : Char) ≠ ' ') ∧
    (tick takeSampler cfgA wlA sPre
        { interrupted := false, now := 0, key := some (KeyCode.char 'n') }).2 = true :=
  ⟨⟨by decide, by decide⟩,
   (last_word_exact_match_completes takeSampler cfgA wlA sPre 0 'n' rfl (by decide)
      (by decide) (by decide) (by decide) (by decide) (by decide)).1⟩

/-- Claim C5 counterexample: the final keystroke of scenario A ends the
session although the interrupt flag is unset, the claimed completion
predicate (Words mode: cursor at or past the target length) is false, and the
key is not the abort key — a fourth path to Finished the claim excludes. -/
theorem session_end_beyond_claimed_paths :
    (tick takeSampler cfgA wlA sPre
        { interrupted := false, now := 0, key := some (KeyCode.char 'n') }).2 = true ∧
    gameOverCheck cfgA sPre 0 = false ∧
    sPre.currentWordIndex = 2 ∧ cfgA.numWords = 3 ∧
    some (KeyCode.char 'n') ≠ some KeyCode.esc := by
  exact ⟨by decide, by decide, by decide, by decide, by decide⟩

/-- Claim C5 (amended): a Running tick ends the session exactly when the
interrupt flag is set, or the completion predicate holds (Time mode: clock
started and at least the time limit elapsed; Words mode: cursor at or past
the target length), or the dispatched key breaks the loop — which happens
exactly for the abort key or for a pushed character firing the Words-mode
last-word exact match — or the dispatched state's cursor reached the queue
length. -/
theorem running_to_finished_characterization (smp : Sampler) (cfg : Config) (wl : List Word)
    (s : GameState) (inp : TickInput) :
    ((tick smp cfg wl s inp).2 = true ↔
      inp.interrupted = true ∨ gameOverCheck cfg s inp.now = true ∨
      (dispatchOpt smp cfg wl s inp.now inp.key).2 = true ∨
      (dispatchOpt smp cfg wl s inp.now inp.key).1.wordsToType.length ≤
        (dispatchOpt smp cfg wl s inp.now inp.key).1.currentWordIndex) ∧
    (gameOverCheck cfg s inp.now = true ↔
      (cfg.gameMode = GameMode.Time ∧
        ∃ t, s.startTime = some t ∧ (cfg.timeLimit : ℚ) ≤ inp.now - t) ∨
      (cfg.gameMode = GameMode.Words ∧ cfg.numWords ≤ s.currentWordIndex)) ∧
    ((dispatchOpt smp cfg wl s inp.now inp.key).2 = true ↔
      inp.key = some KeyCode.esc ∨
      ∃ c, inp.key = some (KeyCode.char c) ∧ c ≠ ' ' ∧ (charEvent cfg s inp.now c).2 = true) ∧
    (∀ c, (charEvent cfg s inp.now c).2 = true ↔
      cfg.gameMode = GameMode.Words ∧
      s.currentWordIndex = cfg.numWords - 1 ∧
      (s.userTypedWords.set s.currentWordIndex
          ((s.userTypedWords.getD s.currentWordIndex []) ++ [c])).getD s.currentWordIndex [] =
        s.wordsToType.getD s.currentWordIndex []) :=
  ⟨tick_snd_iff smp cfg wl s inp, gameOverCheck_iff cfg s inp.now,
   dispatchOpt_snd_iff smp cfg wl s inp.now inp.key,
   fun c => charEvent_snd_iff cfg s inp.now c⟩

/-- Claim C6 (code bug): in Time mode with the menu's minimum test length 5,
a Tab restart while Running leaves only 5 words ahead of the cursor — below
the claimed 10-word margin — because the restart redraw uses `num_words`
even in Time mode; the session is still Running afterwards. -/
theorem time_mode_restart_margin_bug :
    (initState takeSampler cfgT wlT).wordsToType.length -
        (initState takeSampler cfgT wlT).currentWordIndex = 120 ∧
    (tick takeSampler cfgT wlT (initState takeSampler cfgT wlT)
        { interrupted := false, now := 0, key := some KeyCode.tab }).2 = false ∧
    (tick takeSampler cfgT wlT (initState takeSampler cfgT wlT)
        { interrupted := false, now := 0, key := some KeyCode.tab }).1.wordsToType.length -
      (tick takeSampler cfgT wlT (initState takeSampler cfgT wlT)
          { interrupted := false, now := 0, key := some KeyCode.tab }).1.currentWordIndex = 5 := by
  exact ⟨by decide, by decide, by decide⟩

/-- Claim C7 counterexample: with a one-word source and target length 2, the
Words-mode queue has 1 entry, not the claimed `target_length` (no wrap-around
re-sampling happens). -/
theorem words_queue_not_target_length :
    ¬ ((initState takeSampler
          { gameMode := GameMode.Words, numWords := 2, timeLimit := 60, restartButton := true }
          [['a']]).wordsToType.length = 2) := by decide

/-- Claim C7 (amended): the Words-mode queue holds exactly
`min target_length |source|` words, all from the source, drawn without
replacement (no duplicates when the source has none); when `target_length`
exceeds `|source|` the queue is short — there is no wrap-around
re-sampling. -/
theorem words_queue_draw_characterization (smp : Sampler) (cfg : Config) (wl : List Word)
    (h : cfg.gameMode = GameMode.Words) :
    (initState smp cfg wl).wordsToType.length = min cfg.numWords wl.length ∧
    (∀ w ∈ (initState smp cfg wl).wordsToType, w ∈ wl) ∧
    (wl.Nodup → (initState smp cfg wl).wordsToType.Nodup) := by
  obtain ⟨gm, nw, tl, rb⟩ := cfg
  dsimp only at h
  subst h
  exact ⟨smp.length_choose wl nw, smp.mem_choose wl nw, smp.nodup_choose wl nw⟩

/-- Witness for C7 (amended) at scenario A's configuration. -/
theorem words_queue_draw_characterization_witness :
    (initState takeSampler cfgA wlA).wordsToType.length = min cfgA.numWords wlA.length :=
  (words_queue_draw_characterization takeSampler cfgA wlA rfl).1

/-- Claim C8: the final duration is the configured time limit in Time mode
and the elapsed time since the first keystroke in Words mode (zero when no
keystroke started the clock); the final WPM is `(correct / 5)` over the
duration in minutes, and `0` when the duration is `0`. -/
theorem final_duration_and_wpm (cfg : Config) (s : GameState) (now t : ℚ) :
    (cfg.gameMode = GameMode.Time → finalDuration cfg s now = (cfg.timeLimit : ℚ)) ∧
    (cfg.gameMode = GameMode.Words → s.startTime = some t → finalDuration cfg s now = now - t) ∧
    (cfg.gameMode = GameMode.Words → s.startTime = none → finalDuration cfg s now = 0) ∧
    (0 < finalDuration cfg s now →
      finalWpm cfg s now = ((finalCounts s).1 : ℚ) / 5 / (finalDuration cfg s now / 60)) ∧
    (finalDuration cfg s now = 0 → finalWpm cfg s now = 0) := by
  refine ⟨?_, ?_, ?_, ?_, ?_⟩
  · intro hm
    obtain ⟨gm, nw, tl, rb⟩ := cfg
    dsimp only at hm
    subst hm
    rfl
  · intro hm hst
    obtain ⟨gm, nw, tl, rb⟩ := cfg
    dsimp only at hm
    subst hm
    unfold finalDuration
    rw [hst]
  · intro hm hst
    obtain ⟨gm, nw, tl, rb⟩ := cfg
    dsimp only at hm
    subst hm
    unfold finalDuration
    rw [hst]
  · intro hpos
    unfold finalWpm
    rw [if_pos hpos]
  · intro hz
    unfold finalWpm
    rw [hz]
    norm_num

/-- Witness for C8: Time mode uses the configured 60-second limit and a zero
duration yields WPM `0`. -/
theorem final_duration_and_wpm_witness :
    finalDuration cfgT (initState takeSampler cfgT wlT) 0 = (60 : ℚ) :=
  (final_duration_and_wpm cfgT (initState takeSampler cfgT wlT) 0 0).1 rfl

/-- Claim C9: in every reachable session state the number of typed buffers
equals the number of words in the queue. -/
theorem buffers_queue_length_eq (smp : Sampler) (cfg : Config) (wl : List Word)
    (s : GameState) (hr : Reachable smp cfg wl s) :
    s.userTypedWords.length = s.wordsToType.length :=
  (stateInv_reachable smp cfg wl s hr).1

/-- Witness for C9 at a freshly constructed session. -/
theorem buffers_queue_length_eq_witness :
    (initState takeSampler cfgA wlA).userTypedWords.length =
      (initState takeSampler cfgA wlA).wordsToType.length :=
  buffers_queue_length_eq takeSampler cfgA wlA (initState takeSampler cfgA wlA) Reachable.init

/-- Claim C10: in every reachable session state every typed buffer at an
index strictly greater than the cursor is empty. -/
theorem buffers_beyond_cursor_empty (smp : Sampler) (cfg : Config) (wl : List Word)
    (s : GameState) (hr : Reachable smp cfg wl s) :
    ∀ j, s.currentWordIndex < j → s.userTypedWords.getD j [] = [] :=
  (stateInv_reachable smp cfg wl s hr).2

/-- Witness for C10 at a freshly constructed session. -/
theorem buffers_beyond_cursor_empty_witness :
    (initState takeSampler cfgA wlA).userTypedWords.getD 1 [] = [] :=
  buffers_beyond_cursor_empty takeSampler cfgA wlA (initState takeSampler cfgA wlA)
    Reachable.init 1 (by decide)

end TypingTest
